import Mathlib

/-!
Shallow embedding of src/server/models.py (Flask-SQLAlchemy validations lab).

Python strings are modelled as lists of characters (PyStr).  The module
defines two persisted models, Author and Post, each with field validators
that run on every assignment.  Each validator below is a direct translation
of the corresponding Python method; the SQLAlchemy uniqueness query inside
Author.validate_name is modelled as a lookup over an explicit list of
stored Author records.
-/

set_option maxRecDepth 8192

namespace Validations

/-- Python strings, modelled as lists of characters (one entry per code point,
matching Python len and indexing). -/
abbrev PyStr := List Char

/-- The apostrophe character, by code point. -/
def apos : Char := Char.ofNat 39

/-- The whitespace characters removed by Python str.strip. -/
def pyWs (c : Char) : Bool :=
  c == ' ' || c == '\t' || c == '\n' || c == '\r' || c == Char.ofNat 11 || c == Char.ofNat 12

/-- Leading-whitespace removal (left half of Python str.strip). -/
def stripLeft (s : PyStr) : PyStr := s.dropWhile pyWs

/-- Trailing-whitespace removal (right half of Python str.strip). -/
def stripRight (s : PyStr) : PyStr := (s.reverse.dropWhile pyWs).reverse

/-- Python str.strip: remove leading and trailing whitespace. -/
def pyStrip (s : PyStr) : PyStr := stripRight (stripLeft s)

/-- The code-point ranges of the characters Python str.isdigit accepts:
the Unicode characters of numeric type Decimal or Digit (decimal digits of
all scripts, superscripts and subscripts, and similar digit forms), of
which the ASCII digits 0-9 occupy the first range. -/
def pyDigitRanges : List (Nat × Nat) := [
  (0x30, 0x39), (0xB2, 0xB3), (0xB9, 0xB9), (0x660, 0x669),
  (0x6F0, 0x6F9), (0x7C0, 0x7C9), (0x966, 0x96F), (0x9E6, 0x9EF),
  (0xA66, 0xA6F), (0xAE6, 0xAEF), (0xB66, 0xB6F), (0xBE6, 0xBEF),
  (0xC66, 0xC6F), (0xCE6, 0xCEF), (0xD66, 0xD6F), (0xDE6, 0xDEF),
  (0xE50, 0xE59), (0xED0, 0xED9), (0xF20, 0xF29), (0x1040, 0x1049),
  (0x1090, 0x1099), (0x1369, 0x1371), (0x17E0, 0x17E9), (0x1810, 0x1819),
  (0x1946, 0x194F), (0x19D0, 0x19DA), (0x1A80, 0x1A89), (0x1A90, 0x1A99),
  (0x1B50, 0x1B59), (0x1BB0, 0x1BB9), (0x1C40, 0x1C49), (0x1C50, 0x1C59),
  (0x2070, 0x2070), (0x2074, 0x2079), (0x2080, 0x2089), (0x2460, 0x2468),
  (0x2474, 0x247C), (0x2488, 0x2490), (0x24EA, 0x24EA), (0x24F5, 0x24FD),
  (0x24FF, 0x24FF), (0x2776, 0x277E), (0x2780, 0x2788), (0x278A, 0x2792),
  (0xA620, 0xA629), (0xA8D0, 0xA8D9), (0xA900, 0xA909), (0xA9D0, 0xA9D9),
  (0xA9F0, 0xA9F9), (0xAA50, 0xAA59), (0xABF0, 0xABF9), (0xFF10, 0xFF19),
  (0x104A0, 0x104A9), (0x10A40, 0x10A43), (0x10D30, 0x10D39), (0x10E60, 0x10E68),
  (0x11052, 0x1105A), (0x11066, 0x1106F), (0x110F0, 0x110F9), (0x11136, 0x1113F),
  (0x111D0, 0x111D9), (0x112F0, 0x112F9), (0x11450, 0x11459), (0x114D0, 0x114D9),
  (0x11650, 0x11659), (0x116C0, 0x116C9), (0x11730, 0x11739), (0x118E0, 0x118E9),
  (0x11950, 0x11959), (0x11C50, 0x11C59), (0x11D50, 0x11D59), (0x11DA0, 0x11DA9),
  (0x16A60, 0x16A69), (0x16AC0, 0x16AC9), (0x16B50, 0x16B59), (0x1D7CE, 0x1D7FF),
  (0x1E140, 0x1E149), (0x1E2F0, 0x1E2F9), (0x1E950, 0x1E959), (0x1F100, 0x1F10A),
  (0x1FBF0, 0x1FBF9)]

/-- A character Python str.isdigit counts as a digit. -/
def pyCharIsDigit (c : Char) : Bool :=
  pyDigitRanges.any (fun r => r.1 ≤ c.toNat ∧ c.toNat ≤ r.2)

/-- Python str.isdigit on phone-number candidates: nonempty and every
character a digit in the Python sense. -/
def pyIsDigit (s : PyStr) : Bool := !s.isEmpty && s.all pyCharIsDigit

/-- The two distinct failure kinds of the validation layer.  The source
raises ValueError at every failure site; the site in Author.validate_name
guarding uniqueness (message "Author name must be unique.") is the
DuplicateField kind, every other raise site is the InvalidField kind. -/
inductive VErr where
  | InvalidField
  | DuplicateField
deriving DecidableEq

/-- Python values that can reach Author.validate_phone_number: None, a
string, or a non-string value (modelled by its integer case, the one the
isinstance check in the source is there to reject). -/
inductive PyVal where
  | none
  | str (s : PyStr)
  | int (n : Int)
deriving DecidableEq

/-- Validator outcomes are compared up to decidable equality, so concrete
runs of the validators can be checked by evaluation. -/
instance exceptDecidableEq {ε α : Type} [DecidableEq ε] [DecidableEq α] :
    DecidableEq (Except ε α) := fun x y =>
  match x, y with
  | Except.error a, Except.error b =>
      if h : a = b then isTrue (by rw [h])
      else isFalse (by intro hc; cases hc; exact h rfl)
  | Except.error _, Except.ok _ => isFalse (by intro hc; cases hc)
  | Except.ok _, Except.error _ => isFalse (by intro hc; cases hc)
  | Except.ok a, Except.ok b =>
      if h : a = b then isTrue (by rw [h])
      else isFalse (by intro hc; cases hc; exact h rfl)

/-- CLICKBAIT_PHRASES from models.py line 6 (the first phrase contains an
apostrophe, assembled by code point). -/
def wontBelieve : PyStr := 'W' :: 'o' :: 'n' :: apos :: "t Believe".data

def CLICKBAIT_PHRASES : List PyStr :=
  [wontBelieve, "Secret".data, "Top".data, "Guess".data]

/-- A stored Author row: id assigned by storage, plus the name column.
(Phone number and timestamps play no part in the name invariant.) -/
structure AuthorRec where
  id : Nat
  name : PyStr
deriving DecidableEq

/-- Author.validate_name.  st is the set of persisted Author rows visible to
Author.query; selfId is self.id (none while the record is under
construction, as in Python where an unsaved record has id None).  The query
Author.query.filter(Author.name == normalized).first() is the first stored
record whose name equals the normalized candidate. -/
def validate_name (st : List AuthorRec) (selfId : Option Nat) (value : Option PyStr) :
    Except VErr PyStr :=
  match value with
  | Option.none => Except.error VErr.InvalidField
  | Option.some v =>
    if v = [] ∨ pyStrip v = [] then Except.error VErr.InvalidField
    else
      let normalized := pyStrip v
      match st.find? (fun a => a.name == normalized) with
      | Option.some existing =>
          if Option.some existing.id ≠ selfId then Except.error VErr.DuplicateField
          else Except.ok normalized
      | Option.none => Except.ok normalized

/-- Author.validate_phone_number: None passes through; otherwise the value
must be a string of exactly 10 characters, all digits. -/
def validate_phone_number (value : PyVal) : Except VErr PyVal :=
  match value with
  | PyVal.none => Except.ok PyVal.none
  | PyVal.str s =>
      if s.length ≠ 10 ∨ ¬ pyIsDigit s then Except.error VErr.InvalidField
      else Except.ok (PyVal.str s)
  | PyVal.int _ => Except.error VErr.InvalidField

/-- Post.validate_title: non-empty after strip, must contain one of the
clickbait phrases as a substring of the untrimmed value, returns the
stripped value. -/
def validate_title (value : Option PyStr) : Except VErr PyStr :=
  match value with
  | Option.none => Except.error VErr.InvalidField
  | Option.some v =>
    if v = [] ∨ pyStrip v = [] then Except.error VErr.InvalidField
    else if ¬ ∃ p ∈ CLICKBAIT_PHRASES, p <:+: v then Except.error VErr.InvalidField
    else Except.ok (pyStrip v)

/-- Post.validate_content: present and at least 250 characters, returned
unchanged. -/
def validate_content (value : Option PyStr) : Except VErr PyStr :=
  match value with
  | Option.none => Except.error VErr.InvalidField
  | Option.some v =>
      if v.length < 250 then Except.error VErr.InvalidField else Except.ok v

/-- Post.validate_summary: absent passes through; a present value of more
than 250 characters is rejected, otherwise returned unchanged. -/
def validate_summary (value : Option PyStr) : Except VErr (Option PyStr) :=
  match value with
  | Option.none => Except.ok Option.none
  | Option.some v =>
      if v.length > 250 then Except.error VErr.InvalidField
      else Except.ok (Option.some v)

/-- Post.validate_category: the value must be exactly "Fiction" or
"Non-Fiction" (an absent value is likewise not in the allowed set). -/
def validate_category (value : Option PyStr) : Except VErr PyStr :=
  match value with
  | Option.none => Except.error VErr.InvalidField
  | Option.some v =>
      if ¬ (v = "Fiction".data ∨ v = "Non-Fiction".data) then
        Except.error VErr.InvalidField
      else Except.ok v

/-- Constructing an Author: storage assigns a fresh id, validate_name runs
with self.id = None, and on success the record joins the stored set. -/
def insertAuthor (st : List AuthorRec) (newId : Nat) (value : Option PyStr) :
    Except VErr (List AuthorRec) :=
  match validate_name st Option.none value with
  | Except.error e => Except.error e
  | Except.ok nm => Except.ok (AuthorRec.mk newId nm :: st)

/-- Mutating an existing Author name: validate_name runs with self.id set
to the record id, and on success the stored row is updated in place. -/
def updateAuthorName (st : List AuthorRec) (targetId : Nat) (value : Option PyStr) :
    Except VErr (List AuthorRec) :=
  match validate_name st (Option.some targetId) value with
  | Except.error e => Except.error e
  | Except.ok nm =>
      Except.ok (st.map (fun a => if a.id = targetId then AuthorRec.mk a.id nm else a))

/-- Deleting an Author runs no validation. -/
def deleteAuthor (st : List AuthorRec) (targetId : Nat) : List AuthorRec :=
  st.filter (fun a => a.id ≠ targetId)

/-- Storage states reachable from an empty store through constructions and
mutations that pass validation, and deletions.  Storage-assigned ids are
fresh. -/
inductive Reach : List AuthorRec → Prop where
  | nil : Reach []
  | insert {st st2 : List AuthorRec} {newId : Nat} {v : Option PyStr} :
      Reach st → (∀ a ∈ st, a.id ≠ newId) →
      insertAuthor st newId v = Except.ok st2 → Reach st2
  | update {st st2 : List AuthorRec} {i : Nat} {v : Option PyStr} :
      Reach st → updateAuthorName st i v = Except.ok st2 → Reach st2
  | delete {st : List AuthorRec} {i : Nat} :
      Reach st → Reach (deleteAuthor st i)

/-! ### Facts about Python strip -/

/-- dropWhile is idempotent. -/
theorem dropWhile_idem {α : Type} (p : α → Bool) :
    ∀ l : List α, List.dropWhile p (List.dropWhile p l) = List.dropWhile p l
  | [] => rfl
  | a :: l => by
      cases h : p a <;> simp [List.dropWhile_cons, h, dropWhile_idem p l]

theorem stripLeft_idem (s : PyStr) : stripLeft (stripLeft s) = stripLeft s :=
  dropWhile_idem pyWs s

theorem stripRight_idem (s : PyStr) : stripRight (stripRight s) = stripRight s := by
  unfold stripRight
  rw [List.reverse_reverse, dropWhile_idem]

theorem stripLeft_suffix (s : PyStr) : stripLeft s <:+ s :=
  List.dropWhile_suffix pyWs

theorem stripRight_le (s : PyStr) : stripRight s <+: s := by
  have h := List.IsSuffix.reverse (List.dropWhile_suffix (l := s.reverse) pyWs)
  rw [List.reverse_reverse] at h
  exact h

/-- A nonempty string unchanged by stripLeft starts with a non-whitespace
character. -/
theorem stripLeft_head {s : PyStr} (hne : s ≠ []) (h : stripLeft s = s) :
    ∃ c t, s = c :: t ∧ pyWs c = false := by
  cases s with
  | nil => exact absurd rfl hne
  | cons c t =>
    cases hw : pyWs c
    · exact ⟨c, t, rfl, hw⟩
    · exfalso
      have h2 : List.dropWhile pyWs t = c :: t := by
        have h3 := h
        unfold stripLeft at h3
        rwa [List.dropWhile_cons_of_pos hw] at h3
      have h3 : (List.dropWhile pyWs t).length ≤ t.length :=
        List.IsSuffix.length_le (List.dropWhile_suffix pyWs)
      rw [h2] at h3
      simp at h3

/-- A string unchanged by pyStrip is unchanged by each half of it. -/
theorem strip_parts {s : PyStr} (h : pyStrip s = s) :
    stripLeft s = s ∧ stripRight s = s := by
  have h1 : stripLeft s <:+ s := stripLeft_suffix s
  have h2 : stripRight (stripLeft s) <+: stripLeft s := stripRight_le (stripLeft s)
  have l1 : (stripLeft s).length ≤ s.length := List.IsSuffix.length_le h1
  have l2 : (stripRight (stripLeft s)).length ≤ (stripLeft s).length :=
    List.IsPrefix.length_le h2
  have hs : (stripRight (stripLeft s)).length = s.length := by
    have h4 : pyStrip s = s := h
    unfold pyStrip at h4
    rw [h4]
  have e1 : stripLeft s = s := List.IsSuffix.eq_of_length h1 (by omega)
  refine ⟨e1, ?_⟩
  calc stripRight s = stripRight (stripLeft s) := by rw [e1]
    _ = s := by unfold pyStrip at h; exact h

theorem stripLeft_stripRight {s : PyStr} (h : stripLeft s = s) :
    stripLeft (stripRight s) = stripRight s := by
  by_cases hne : s = []
  · subst hne; rfl
  · obtain ⟨c, t, hct, hw⟩ := stripLeft_head hne h
    have hp : stripRight s <+: s := stripRight_le s
    cases hr : stripRight s with
    | nil => rfl
    | cons c2 t2 =>
      rw [hr, hct] at hp
      have hc2 : c2 = c := ( List.cons_prefix_cons.mp hp).1
      unfold stripLeft
      rw [List.dropWhile_cons_of_neg (by simp [hc2, hw])]

theorem pyStrip_idem (s : PyStr) : pyStrip (pyStrip s) = pyStrip s := by
  unfold pyStrip
  rw [stripLeft_stripRight (stripLeft_idem s), stripRight_idem]

/-- Surrounding a trimmed nonempty string with two spaces on each side
strips back to the string itself. -/
theorem pyStrip_pad {s : PyStr} (hs : pyStrip s = s) (hne : s ≠ []) :
    pyStrip (' ' :: ' ' :: s ++ [' ', ' ']) = s := by
  obtain ⟨hL, hR⟩ := strip_parts hs
  obtain ⟨c, t, hct, hw⟩ := stripLeft_head hne hL
  subst hct
  have hdr : List.dropWhile pyWs (c :: t).reverse = (c :: t).reverse := by
    have h2 := congrArg List.reverse hR
    unfold stripRight at h2
    rwa [List.reverse_reverse] at h2
  unfold pyStrip
  have h1 : stripLeft ((' ' :: ' ' :: (c :: t)) ++ [' ', ' ']) = (c :: t) ++ [' ', ' '] := by
    unfold stripLeft
    rw [show ((' ' :: ' ' :: (c :: t)) ++ [' ', ' ']) = ' ' :: ' ' :: c :: (t ++ [' ', ' '])
      from by simp]
    rw [List.dropWhile_cons_of_pos (by decide), List.dropWhile_cons_of_pos (by decide),
      List.dropWhile_cons_of_neg (by simp [hw])]
    simp
  rw [h1]
  unfold stripRight
  rw [List.reverse_append]
  rw [show (([' ', ' '] : PyStr).reverse ++ (c :: t).reverse) = ' ' :: ' ' :: (c :: t).reverse
    from by simp]
  rw [List.dropWhile_cons_of_pos (by decide), List.dropWhile_cons_of_pos (by decide), hdr,
    List.reverse_reverse]

/-! ### Substring occurrences survive stripping -/

/-- A substring starting with a character the predicate rejects survives
dropWhile. -/
theorem sub_dropWhile (p : Char → Bool) (c : Char) (q : PyStr) (hc : p c = false) :
    ∀ v : PyStr, (c :: q) <:+: v → (c :: q) <:+: List.dropWhile p v := by
  intro v
  induction v with
  | nil => intro h; simp at h
  | cons a w ih =>
    intro h
    cases ha : p a
    · rwa [List.dropWhile_cons_of_neg (by simp [ha])]
    · rw [List.dropWhile_cons_of_pos ha]
      rcases List.infix_cons_iff.mp h with hpre | hinf
      · rcases List.cons_prefix_cons.mp hpre with ⟨hca, hq⟩
        rw [hca] at hc
        rw [hc] at ha
        simp at ha
      · exact ih hinf

theorem sub_stripLeft {c : Char} {q v : PyStr} (hc : pyWs c = false)
    (h : (c :: q) <:+: v) : (c :: q) <:+: stripLeft v :=
  sub_dropWhile pyWs c q hc v h

theorem sub_stripRight {d : Char} {q v : PyStr} (hd : pyWs d = false)
    (h : (q ++ [d]) <:+: v) : (q ++ [d]) <:+: stripRight v := by
  have h1 : (d :: q.reverse) <:+: v.reverse := by
    have h2 := List.IsInfix.reverse h
    simpa using h2
  have h3 := sub_dropWhile pyWs d q.reverse hd v.reverse h1
  have h4 := List.IsInfix.reverse h3
  simpa [stripRight] using h4

theorem sub_pyStrip {c d : Char} {q v : PyStr} (hc : pyWs c = false) (hd : pyWs d = false)
    (h : ((c :: q) ++ [d]) <:+: v) : ((c :: q) ++ [d]) <:+: pyStrip v := by
  have h0 : (c :: (q ++ [d])) <:+: v := by rwa [List.cons_append] at h
  have h1 : (c :: (q ++ [d])) <:+: stripLeft v := sub_stripLeft hc h0
  have h2 : ((c :: q) ++ [d]) <:+: stripLeft v := by rwa [List.cons_append]
  have h3 := sub_stripRight hd h2
  simpa [pyStrip] using h3

/-- Every clickbait phrase occurring in a title still occurs in the
stripped title: the phrases start and end with non-whitespace characters. -/
theorem phraseStripStable {p0 : PyStr} (hp : p0 ∈ CLICKBAIT_PHRASES) {v : PyStr}
    (h : p0 <:+: v) : p0 <:+: pyStrip v := by
  have hdecomp : ∃ c q d, p0 = (c :: q) ++ [d] ∧ pyWs c = false ∧ pyWs d = false := by
    simp [CLICKBAIT_PHRASES] at hp
    rcases hp with h1 | h1 | h1 | h1 <;> subst h1
    · exact ⟨'W', 'o' :: 'n' :: apos :: "t Believ".data, 'e', by decide, by decide, by decide⟩
    · exact ⟨'S', "ecre".data, 't', by decide, by decide, by decide⟩
    · exact ⟨'T', ['o'], 'p', by decide, by decide, by decide⟩
    · exact ⟨'G', "ues".data, 's', by decide, by decide, by decide⟩
  obtain ⟨c, q, d, he, hc, hd⟩ := hdecomp
  rw [he] at h ⊢
  exact sub_pyStrip hc hd h

/-! ### The Author name uniqueness invariant -/



theorem validate_name_ok_construct {st : List AuthorRec} {v nm : PyStr}
    (h : validate_name st Option.none (Option.some v) = Except.ok nm) :
    nm = pyStrip v ∧ nm ≠ [] ∧ ∀ a ∈ st, a.name ≠ nm := by
  simp only [validate_name] at h
  by_cases hc : v = [] ∨ pyStrip v = []
  · rw [if_pos hc] at h; simp at h
  · rw [if_neg hc] at h
    cases hf : st.find? (fun a => a.name == pyStrip v) with
    | none =>
      rw [hf] at h
      simp at h
      subst h
      refine ⟨rfl, ?_, ?_⟩
      · intro he; exact hc (Or.inr he)
      · intro a ha hae
        have := List.find?_eq_none.mp hf a ha
        simp [hae] at this
    | some ex =>
      rw [hf] at h
      simp at h



/-- What success of validate_name during an update means. -/
theorem validate_name_ok_update {st : List AuthorRec} {i : Nat} {v nm : PyStr}
    (h : validate_name st (Option.some i) (Option.some v) = Except.ok nm) :
    nm = pyStrip v ∧ nm ≠ [] ∧
      ((∀ a ∈ st, a.name ≠ nm) ∨ ∃ ex, ex ∈ st ∧ ex.name = nm ∧ ex.id = i) := by
  simp only [validate_name] at h
  by_cases hc : v = [] ∨ pyStrip v = []
  · rw [if_pos hc] at h; simp at h
  · rw [if_neg hc] at h
    cases hf : st.find? (fun a => a.name == pyStrip v) with
    | none =>
      rw [hf] at h
      simp at h
      subst h
      refine ⟨rfl, fun he => hc (Or.inr he), Or.inl ?_⟩
      intro a ha hae
      have h5 := List.find?_eq_none.mp hf a ha
      simp [hae] at h5
    | some ex =>
      rw [hf] at h
      by_cases hdd : ex.id = i
      · simp [hdd] at h
        subst h
        refine ⟨rfl, fun he => hc (Or.inr he),
          Or.inr ⟨ex, List.mem_of_find?_eq_some hf, ?_, hdd⟩⟩
        have h6 := List.find?_some hf
        simpa using h6
      · simp [hdd] at h

/-- Names as stored are trimmed. -/
def TidyNames (st : List AuthorRec) : Prop := ∀ a ∈ st, pyStrip a.name = a.name

/-- Inductive storage invariant: ids pairwise distinct, stored names
trimmed, names pairwise distinct. -/
def Inv (st : List AuthorRec) : Prop :=
  st.Pairwise (fun a b => a.id ≠ b.id) ∧ TidyNames st ∧
    st.Pairwise (fun a b => a.name ≠ b.name)

theorem inv_nil : Inv [] :=
  ⟨List.Pairwise.nil, fun a ha => absurd ha (List.not_mem_nil a), List.Pairwise.nil⟩

theorem inv_insert {st st2 : List AuthorRec} {newId : Nat} {v : Option PyStr}
    (hInv : Inv st) (hfresh : ∀ a ∈ st, a.id ≠ newId)
    (h : insertAuthor st newId v = Except.ok st2) : Inv st2 := by
  obtain ⟨hid, htidy, hname⟩ := hInv
  cases v with
  | none => simp [insertAuthor, validate_name] at h
  | some v =>
    unfold insertAuthor at h
    cases hval : validate_name st Option.none (Option.some v) with
    | error e => rw [hval] at h; simp at h
    | ok nm =>
      rw [hval] at h
      simp at h
      subst h
      obtain ⟨hnm, hne, hfree⟩ := validate_name_ok_construct hval
      refine ⟨?_, ?_, ?_⟩
      · exact List.pairwise_cons.mpr ⟨fun b hb he => hfresh b hb he.symm, hid⟩
      · intro a ha
        rcases List.mem_cons.mp ha with h1 | h1
        · subst h1; show pyStrip nm = nm; rw [hnm]; exact pyStrip_idem v
        · exact htidy a h1
      · exact List.pairwise_cons.mpr ⟨fun b hb he => hfree b hb he.symm, hname⟩

theorem pairwise_names_inj {st : List AuthorRec}
    (hname : st.Pairwise (fun a b => a.name ≠ b.name)) :
    ∀ a ∈ st, ∀ b ∈ st, a.name = b.name → a = b := by
  intro a ha b hb he
  by_contra hne
  have hsym : Symmetric (fun a b : AuthorRec => a.name ≠ b.name) :=
    fun x y hxy hyx => hxy hyx.symm
  exact (List.Pairwise.forall hsym hname ha hb hne) he

theorem inv_update {st st2 : List AuthorRec} {i : Nat} {v : Option PyStr}
    (hInv : Inv st) (h : updateAuthorName st i v = Except.ok st2) : Inv st2 := by
  obtain ⟨hid, htidy, hname⟩ := hInv
  cases v with
  | none => simp [updateAuthorName, validate_name] at h
  | some v =>
    unfold updateAuthorName at h
    cases hval : validate_name st (Option.some i) (Option.some v) with
    | error e => rw [hval] at h; simp at h
    | ok nm =>
      rw [hval] at h
      simp at h
      subst h
      obtain ⟨hnm, hne, hdup⟩ := validate_name_ok_update hval
      have hfid : ∀ a : AuthorRec, (if a.id = i then AuthorRec.mk a.id nm else a).id = a.id := by
        intro a; split <;> rfl
      refine ⟨?_, ?_, ?_⟩
      · rw [List.pairwise_map]
        exact hid.imp (fun hab => by rw [hfid, hfid]; exact hab)
      · intro x hx
        rcases List.mem_map.mp hx with ⟨a, ha, hax⟩
        subst hax
        by_cases hai : a.id = i
        · rw [if_pos hai]; show pyStrip nm = nm; rw [hnm]; exact pyStrip_idem v
        · rw [if_neg hai]; exact htidy a ha
      · rw [List.pairwise_map]
        have hcomb := hid.and hname
        refine hcomb.imp_of_mem ?_
        intro a b ha hb hab
        obtain ⟨haid, haname⟩ := hab
        by_cases hai : a.id = i <;> by_cases hbi : b.id = i
        · exact absurd (hai.trans hbi.symm) haid
        · rw [if_pos hai, if_neg hbi]
          show nm ≠ b.name
          rcases hdup with hfree | ⟨ex, hex, hexname, hexid⟩
          · exact fun he => hfree b hb he.symm
          · intro he
            have hbe : b = ex := pairwise_names_inj hname b hb ex hex (he.symm.trans hexname.symm)
            exact hbi (by rw [hbe]; exact hexid)
        · rw [if_neg hai, if_pos hbi]
          show a.name ≠ nm
          rcases hdup with hfree | ⟨ex, hex, hexname, hexid⟩
          · exact fun he => hfree a ha he
          · intro he
            have hae2 : a = ex := pairwise_names_inj hname a ha ex hex (he.trans hexname.symm)
            exact hai (by rw [hae2]; exact hexid)
        · rw [if_neg hai, if_neg hbi]; exact haname

theorem inv_delete {st : List AuthorRec} (hInv : Inv st) (i : Nat) :
    Inv (deleteAuthor st i) := by
  obtain ⟨hid, htidy, hname⟩ := hInv
  exact ⟨List.Pairwise.sublist (List.filter_sublist st) hid,
    fun a ha => htidy a (List.mem_of_mem_filter ha),
    List.Pairwise.sublist (List.filter_sublist st) hname⟩

theorem inv_reach {st : List AuthorRec} (h : Reach st) : Inv st := by
  induction h with
  | nil => exact inv_nil
  | insert hr hfresh hins ih => exact inv_insert ih hfresh hins
  | update hr hupd ih => exact inv_update ih hupd
  | delete hr ih => exact inv_delete ih _

/-! ### The claims -/



/-- Any accepted name candidate normalizes to its trimmed value. -/
theorem validate_name_ok_val {st : List AuthorRec} {selfId : Option Nat} {v nm : PyStr}
    (h : validate_name st selfId (Option.some v) = Except.ok nm) : nm = pyStrip v := by
  simp only [validate_name] at h
  by_cases hc : v = [] ∨ pyStrip v = []
  · rw [if_pos hc] at h; simp at h
  · rw [if_neg hc] at h
    cases hf : st.find? (fun a => a.name == pyStrip v) with
    | none => rw [hf] at h; simp at h; exact h.symm
    | some ex =>
      rw [hf] at h
      by_cases hx : Option.some ex.id ≠ selfId
      · simp [hx] at h
      · simp [hx] at h; exact h.symm

/-- C1: in every storage state reachable through validated constructions and
mutations (and deletions), no two stored Author records share the same
trimmed name. -/
theorem author_names_pairwise_distinct {st : List AuthorRec} (h : Reach st) :
    st.Pairwise (fun a b => pyStrip a.name ≠ pyStrip b.name) := by
  obtain ⟨hid, htidy, hname⟩ := inv_reach h
  refine hname.imp_of_mem ?_
  intro a b ha hb hab
  rw [htidy a ha, htidy b hb]
  exact hab

/-- Witness for C1 at a concrete reachable two-record state. -/
theorem author_names_pairwise_distinct_witness :
    List.Pairwise (fun a b => pyStrip a.name ≠ pyStrip b.name)
      [AuthorRec.mk 2 "Bob".data, AuthorRec.mk 1 "Alice".data] := by
  have h1 : insertAuthor [] 1 (Option.some "Alice".data) =
      Except.ok [AuthorRec.mk 1 "Alice".data] := by decide
  have h2 : insertAuthor [AuthorRec.mk 1 "Alice".data] 2 (Option.some "Bob".data) =
      Except.ok [AuthorRec.mk 2 "Bob".data, AuthorRec.mk 1 "Alice".data] := by decide
  exact author_names_pairwise_distinct
    (Reach.insert (Reach.insert Reach.nil (by simp) h1) (by decide) h2)



/-- C2: creating an Author under a fresh trimmed nonempty name succeeds; a
second construction with the same name, or with the name surrounded by
whitespace, fails with DuplicateField, a kind distinct from InvalidField. -/
theorem author_duplicate_name_rejected (st : List AuthorRec) (s : PyStr) (i : Nat)
    (hs : pyStrip s = s) (hne : s ≠ []) (hfree : ∀ a ∈ st, a.name ≠ s) :
    insertAuthor st i (Option.some s) = Except.ok (AuthorRec.mk i s :: st) ∧
    validate_name (AuthorRec.mk i s :: st) Option.none (Option.some s) =
      Except.error VErr.DuplicateField ∧
    validate_name (AuthorRec.mk i s :: st) Option.none
        (Option.some (' ' :: ' ' :: s ++ [' ', ' '])) =
      Except.error VErr.DuplicateField ∧
    VErr.DuplicateField ≠ VErr.InvalidField := by
  have hcond : ¬ (s = [] ∨ pyStrip s = []) := by
    rintro (h1 | h1)
    · exact hne h1
    · rw [hs] at h1; exact hne h1
  have hfind : st.find? (fun a => a.name == s) = Option.none :=
    List.find?_eq_none.mpr (fun a ha => by simp [hfree a ha])
  refine ⟨?_, ?_, ?_, by simp⟩
  · simp only [insertAuthor, validate_name]
    rw [if_neg hcond, hs, hfind]
  · simp only [validate_name]
    rw [if_neg hcond, hs]
    rw [List.find?_cons_of_pos _ (by simp)]
    simp
  · have hpad : pyStrip (' ' :: ' ' :: s ++ [' ', ' ']) = s := pyStrip_pad hs hne
    have hcond2 : ¬ ((' ' :: ' ' :: s ++ [' ', ' ']) = [] ∨
        pyStrip (' ' :: ' ' :: s ++ [' ', ' ']) = []) := by
      rintro (h1 | h1)
      · simp at h1
      · rw [hpad] at h1; exact hne h1
    simp only [validate_name]
    rw [if_neg hcond2, hpad]
    rw [List.find?_cons_of_pos _ (by simp)]
    simp

/-- Witness for C2 at the empty store with the name Alice. -/
theorem author_duplicate_name_rejected_witness :
    insertAuthor [] 1 (Option.some "Alice".data) =
      Except.ok [AuthorRec.mk 1 "Alice".data] ∧
    validate_name [AuthorRec.mk 1 "Alice".data] Option.none (Option.some "Alice".data) =
      Except.error VErr.DuplicateField ∧
    validate_name [AuthorRec.mk 1 "Alice".data] Option.none
        (Option.some (' ' :: ' ' :: "Alice".data ++ [' ', ' '])) =
      Except.error VErr.DuplicateField ∧
    VErr.DuplicateField ≠ VErr.InvalidField :=
  author_duplicate_name_rejected [] "Alice".data 1 (by decide) (by decide) (by simp)



/-- C3 counterexample: the validator accepts a 10-character string of
Arabic-Indic digit characters, none of which is an ASCII digit 0-9: the
str.isdigit check of the source is Unicode-aware, so a present candidate
containing characters outside 0-9 does not always fail. -/
theorem validate_phone_number_accepts_unicode_digits :
    validate_phone_number (PyVal.str (List.replicate 10 (Char.ofNat 0x663))) =
      Except.ok (PyVal.str (List.replicate 10 (Char.ofNat 0x663))) ∧
    ∀ c ∈ List.replicate 10 (Char.ofNat 0x663), ¬ Char.isDigit c := by
  refine ⟨by decide, by decide⟩

/-- C3 (amended): phone validation: an absent value passes through
unchanged; a present string succeeds unchanged exactly when it is 10
characters long and every character is a digit in the sense of Python
str.isdigit (the Unicode digit characters, of which 0-9 are the ASCII
cases); any string of other length or with a character that is not such a
digit fails with InvalidField. -/
theorem validate_phone_number_spec :
    validate_phone_number PyVal.none = Except.ok PyVal.none ∧
    (∀ s : PyStr, validate_phone_number (PyVal.str s) = Except.ok (PyVal.str s) ↔
      s.length = 10 ∧ ∀ c ∈ s, pyCharIsDigit c) ∧
    (∀ s : PyStr, (s.length ≠ 10 ∨ ∃ c ∈ s, ¬ pyCharIsDigit c) →
      validate_phone_number (PyVal.str s) = Except.error VErr.InvalidField) := by
  refine ⟨rfl, ?_, ?_⟩
  · intro s
    constructor
    · intro h
      simp only [validate_phone_number] at h
      by_cases hc : s.length ≠ 10 ∨ ¬ pyIsDigit s
      · rw [if_pos hc] at h; simp at h
      · have h1 : s.length = 10 := by
          by_contra hx; exact hc (Or.inl hx)
        have h2 : pyIsDigit s = true := by
          by_contra hx; exact hc (Or.inr (by simpa using hx))
        simp only [pyIsDigit, Bool.and_eq_true, List.all_eq_true] at h2
        exact ⟨h1, fun c hcs => h2.2 c hcs⟩
    · rintro ⟨h1, h2⟩
      have hd : pyIsDigit s = true := by
        simp only [pyIsDigit, Bool.and_eq_true, List.all_eq_true]
        refine ⟨?_, h2⟩
        cases s with
        | nil => simp at h1
        | cons c t => simp
      simp only [validate_phone_number]
      rw [if_neg ?_]
      rintro (hx | hx)
      · exact hx h1
      · rw [hd] at hx; simp at hx
  · intro s h
    simp only [validate_phone_number]
    rw [if_pos ?_]
    rcases h with h | ⟨c, hcs, hcd⟩
    · exact Or.inl h
    · refine Or.inr ?_
      simp only [pyIsDigit, Bool.and_eq_true, List.all_eq_true]
      rintro ⟨h3, h4⟩
      exact hcd (h4 c hcs)

/-- Witness for C3: a 5-digit string is rejected. -/
theorem validate_phone_number_spec_witness :
    validate_phone_number (PyVal.str "12345".data) = Except.error VErr.InvalidField :=
  validate_phone_number_spec.2.2 "12345".data (Or.inl (by decide))

/-- C10: a present non-string phone candidate is always rejected by the
isinstance check, even the integer 1234567890 whose decimal rendering has
exactly 10 characters, all digits. -/
theorem validate_phone_number_non_string :
    (∀ n : Int, validate_phone_number (PyVal.int n) = Except.error VErr.InvalidField) ∧
    validate_phone_number (PyVal.int 1234567890) = Except.error VErr.InvalidField ∧
    (toString (1234567890 : Int)).data.length = 10 ∧
    pyIsDigit (toString (1234567890 : Int)).data = true := by
  refine ⟨fun n => rfl, rfl, by decide, by decide⟩

/-- Witness for C10 at the integer 5. -/
theorem validate_phone_number_non_string_witness :
    validate_phone_number (PyVal.int 5) = Except.error VErr.InvalidField :=
  validate_phone_number_non_string.1 5



/-- C4: title validation fails with InvalidField on absent or
whitespace-only candidates and on candidates containing none of the four
clickbait phrases; otherwise it succeeds with the trimmed candidate.  The
concrete spec examples behave accordingly. -/
theorem validate_title_spec :
    validate_title Option.none = Except.error VErr.InvalidField ∧
    (∀ v : PyStr, pyStrip v = [] →
      validate_title (Option.some v) = Except.error VErr.InvalidField) ∧
    (∀ v : PyStr, (¬ ∃ p ∈ CLICKBAIT_PHRASES, p <:+: v) →
      validate_title (Option.some v) = Except.error VErr.InvalidField) ∧
    (∀ v : PyStr, pyStrip v ≠ [] → (∃ p ∈ CLICKBAIT_PHRASES, p <:+: v) →
      validate_title (Option.some v) = Except.ok (pyStrip v)) ∧
    validate_title (Option.some ("You Won".data ++ apos :: "t Believe This".data)) =
      Except.ok ("You Won".data ++ apos :: "t Believe This".data) ∧
    validate_title (Option.some "Boring Update".data) = Except.error VErr.InvalidField ∧
    validate_title (Option.some ([] : PyStr)) = Except.error VErr.InvalidField := by
  refine ⟨rfl, ?_, ?_, ?_, by decide, by decide, by decide⟩
  · intro v h
    simp only [validate_title]
    rw [if_pos (Or.inr h)]
  · intro v h
    simp only [validate_title]
    by_cases h0 : v = [] ∨ pyStrip v = []
    · rw [if_pos h0]
    · rw [if_neg h0, if_pos h]
  · intro v h1 h2
    simp only [validate_title]
    rw [if_neg ?_, if_neg (not_not_intro h2)]
    rintro (he | he)
    · subst he; exact h1 rfl
    · exact h1 he

/-- Witness for C4: a title with a leading space and the phrase Top is
accepted and trimmed. -/
theorem validate_title_spec_witness :
    validate_title (Option.some (' ' :: "Top Ten".data)) = Except.ok "Top Ten".data := by
  have h := validate_title_spec.2.2.2.1 (' ' :: "Top Ten".data) (by decide)
    ⟨"Top".data, by decide, by decide⟩
  have h2 : pyStrip (' ' :: "Top Ten".data) = "Top Ten".data := by decide
  rwa [h2] at h

/-- C5: name validation fails with InvalidField on absent, empty or
whitespace-only candidates; each accepted candidate is returned trimmed,
and the trimmed value is what construction and mutation store. -/
theorem validate_name_spec :
    (∀ (st : List AuthorRec) (selfId : Option Nat),
      validate_name st selfId Option.none = Except.error VErr.InvalidField) ∧
    (∀ (st : List AuthorRec) (selfId : Option Nat) (v : PyStr), pyStrip v = [] →
      validate_name st selfId (Option.some v) = Except.error VErr.InvalidField) ∧
    (∀ (st : List AuthorRec) (selfId : Option Nat) (v nm : PyStr),
      validate_name st selfId (Option.some v) = Except.ok nm → nm = pyStrip v) ∧
    (∀ (st : List AuthorRec) (i : Nat) (v : PyStr) (st2 : List AuthorRec),
      insertAuthor st i (Option.some v) = Except.ok st2 →
      st2 = AuthorRec.mk i (pyStrip v) :: st) ∧
    (∀ (st : List AuthorRec) (i : Nat) (v : PyStr) (st2 : List AuthorRec),
      updateAuthorName st i (Option.some v) = Except.ok st2 →
      ∀ a ∈ st, a.id = i → AuthorRec.mk i (pyStrip v) ∈ st2) := by
  refine ⟨fun st selfId => rfl, ?_, ?_, ?_, ?_⟩
  · intro st selfId v h
    simp only [validate_name]
    rw [if_pos (Or.inr h)]
  · intro st selfId v nm h
    exact validate_name_ok_val h
  · intro st i v st2 h
    unfold insertAuthor at h
    cases hval : validate_name st Option.none (Option.some v) with
    | error e => rw [hval] at h; simp at h
    | ok nm =>
      rw [hval] at h
      simp at h
      rw [← h, validate_name_ok_val hval]
  · intro st i v st2 h
    unfold updateAuthorName at h
    cases hval : validate_name st (Option.some i) (Option.some v) with
    | error e => rw [hval] at h; simp at h
    | ok nm =>
      rw [hval] at h
      simp at h
      subst h
      intro a ha hai
      refine List.mem_map.mpr ⟨a, ha, ?_⟩
      rw [if_pos hai, hai, validate_name_ok_val hval]

/-- Witness for C5: a whitespace-only name is rejected. -/
theorem validate_name_spec_witness :
    validate_name ([] : List AuthorRec) Option.none (Option.some "   ".data) =
      Except.error VErr.InvalidField :=
  validate_name_spec.2.1 [] Option.none "   ".data (by decide)



/-- C6: content validation fails with InvalidField exactly when the
candidate is absent or shorter than 250 characters, and otherwise returns
it unchanged; lengths 249, 250 and 1000 behave as specified. -/
theorem validate_content_spec :
    validate_content Option.none = Except.error VErr.InvalidField ∧
    (∀ v : PyStr, validate_content (Option.some v) = Except.error VErr.InvalidField ↔
      v.length < 250) ∧
    (∀ v : PyStr, 250 ≤ v.length → validate_content (Option.some v) = Except.ok v) ∧
    validate_content (Option.some (List.replicate 249 'a')) =
      Except.error VErr.InvalidField ∧
    validate_content (Option.some (List.replicate 250 'a')) =
      Except.ok (List.replicate 250 'a') ∧
    validate_content (Option.some (List.replicate 1000 'a')) =
      Except.ok (List.replicate 1000 'a') := by
  have hgen : ∀ v : PyStr,
      validate_content (Option.some v) = Except.error VErr.InvalidField ↔ v.length < 250 := by
    intro v
    simp only [validate_content]
    by_cases hl : v.length < 250
    · rw [if_pos hl]; simpa using hl
    · rw [if_neg hl]; simpa using hl
  have hok : ∀ v : PyStr, 250 ≤ v.length → validate_content (Option.some v) = Except.ok v := by
    intro v hv
    simp only [validate_content]
    rw [if_neg (by omega)]
  refine ⟨rfl, hgen, hok, ?_, ?_, ?_⟩
  · exact (hgen _).mpr (by simp)
  · exact hok _ (by simp)
  · exact hok _ (by simp)

/-- Witness for C6: 249 characters are rejected, via the theorem itself. -/
theorem validate_content_spec_witness :
    validate_content (Option.some (List.replicate 300 'b')) =
      Except.ok (List.replicate 300 'b') :=
  validate_content_spec.2.2.1 (List.replicate 300 'b') (by simp)

/-- C7: summary validation passes an absent value through unchanged; a
present value fails with InvalidField exactly when longer than 250
characters and is returned unchanged otherwise; lengths 250 and 251 behave
as specified. -/
theorem validate_summary_spec :
    validate_summary Option.none = Except.ok Option.none ∧
    (∀ v : PyStr, validate_summary (Option.some v) = Except.error VErr.InvalidField ↔
      250 < v.length) ∧
    (∀ v : PyStr, v.length ≤ 250 →
      validate_summary (Option.some v) = Except.ok (Option.some v)) ∧
    validate_summary (Option.some (List.replicate 250 'a')) =
      Except.ok (Option.some (List.replicate 250 'a')) ∧
    validate_summary (Option.some (List.replicate 251 'a')) =
      Except.error VErr.InvalidField := by
  have hgen : ∀ v : PyStr,
      validate_summary (Option.some v) = Except.error VErr.InvalidField ↔ 250 < v.length := by
    intro v
    simp only [validate_summary]
    by_cases hl : v.length > 250
    · rw [if_pos hl]; simpa using hl
    · rw [if_neg hl]; simpa using hl
  have hok : ∀ v : PyStr, v.length ≤ 250 →
      validate_summary (Option.some v) = Except.ok (Option.some v) := by
    intro v hv
    simp only [validate_summary]
    rw [if_neg (by omega)]
  refine ⟨rfl, hgen, hok, hok _ (by simp), (hgen _).mpr (by simp)⟩

/-- Witness for C7: a 100-character summary is accepted unchanged. -/
theorem validate_summary_spec_witness :
    validate_summary (Option.some (List.replicate 100 'c')) =
      Except.ok (Option.some (List.replicate 100 'c')) :=
  validate_summary_spec.2.2.1 (List.replicate 100 'c') (by simp)

/-- C8: category validation succeeds unchanged exactly on the literal
strings Fiction and Non-Fiction; every other candidate, including wrong
case, other strings and an absent value, fails with InvalidField. -/
theorem validate_category_spec :
    (∀ v : PyStr, validate_category (Option.some v) = Except.ok v ↔
      v = "Fiction".data ∨ v = "Non-Fiction".data) ∧
    (∀ v : PyStr, v ≠ "Fiction".data → v ≠ "Non-Fiction".data →
      validate_category (Option.some v) = Except.error VErr.InvalidField) ∧
    validate_category Option.none = Except.error VErr.InvalidField ∧
    validate_category (Option.some "Fiction".data) = Except.ok "Fiction".data ∧
    validate_category (Option.some "Non-Fiction".data) = Except.ok "Non-Fiction".data ∧
    validate_category (Option.some "fiction".data) = Except.error VErr.InvalidField ∧
    validate_category (Option.some "Drama".data) = Except.error VErr.InvalidField := by
  refine ⟨?_, ?_, rfl, by decide, by decide, by decide, by decide⟩
  · intro v
    constructor
    · intro h
      simp only [validate_category] at h
      by_cases hm : v = "Fiction".data ∨ v = "Non-Fiction".data
      · exact hm
      · rw [if_pos hm] at h; simp at h
    · intro hm
      simp only [validate_category]
      rw [if_neg (not_not_intro hm)]
  · intro v h1 h2
    simp only [validate_category]
    rw [if_pos ?_]
    rintro (h | h)
    · exact h1 h
    · exact h2 h

/-- Witness for C8: the exact string Fiction is accepted, via the theorem. -/
theorem validate_category_spec_witness :
    validate_category (Option.some "Fiction".data) = Except.ok "Fiction".data :=
  (validate_category_spec.1 "Fiction".data).mpr (Or.inl rfl)



/-- C9: every field validator is idempotent on the values it accepts:
re-running the validator on the value it returned (for Author name, with
the same store and the same self id) succeeds and returns that value
unchanged, so re-saving an unmodified valid record raises no error. -/
theorem validators_idempotent :
    (∀ (st : List AuthorRec) (selfId : Option Nat) (v t : PyStr),
      validate_name st selfId (Option.some v) = Except.ok t →
      validate_name st selfId (Option.some t) = Except.ok t) ∧
    (∀ v t : PyStr, validate_title (Option.some v) = Except.ok t →
      validate_title (Option.some t) = Except.ok t) ∧
    (∀ (v : Option PyStr) (t : PyStr), validate_content v = Except.ok t →
      validate_content (Option.some t) = Except.ok t) ∧
    (∀ v t : Option PyStr, validate_summary v = Except.ok t →
      validate_summary t = Except.ok t) ∧
    (∀ (v : Option PyStr) (t : PyStr), validate_category v = Except.ok t →
      validate_category (Option.some t) = Except.ok t) ∧
    (∀ v t : PyVal, validate_phone_number v = Except.ok t →
      validate_phone_number t = Except.ok t) := by
  refine ⟨?_, ?_, ?_, ?_, ?_, ?_⟩
  · intro st selfId v t h
    have ht : t = pyStrip v := validate_name_ok_val h
    subst ht
    have hti : pyStrip (pyStrip v) = pyStrip v := pyStrip_idem v
    simp only [validate_name] at h ⊢
    by_cases hc : v = [] ∨ pyStrip v = []
    · rw [if_pos hc] at h; simp at h
    · rw [if_neg hc] at h
      rw [if_neg (by rw [hti]; rintro (he | he) <;> exact hc (Or.inr he))]
      rw [hti]
      cases hf : st.find? (fun a => a.name == pyStrip v) with
      | none => rfl
      | some ex =>
        rw [hf] at h
        by_cases hx : Option.some ex.id ≠ selfId
        · simp [hx] at h
        · simp [hx]
  · intro v t h
    have hti := pyStrip_idem v
    simp only [validate_title] at h ⊢
    by_cases h0 : v = [] ∨ pyStrip v = []
    · rw [if_pos h0] at h; simp at h
    · rw [if_neg h0] at h
      by_cases h1 : ∃ p ∈ CLICKBAIT_PHRASES, p <:+: v
      · rw [if_neg (not_not_intro h1)] at h
        simp at h
        subst h
        obtain ⟨p0, hp0, hpv⟩ := h1
        rw [if_neg (by rw [hti]; rintro (he | he) <;> exact h0 (Or.inr he))]
        rw [if_neg (not_not_intro ⟨p0, hp0, phraseStripStable hp0 hpv⟩)]
        rw [hti]
      · rw [if_pos h1] at h; simp at h
  · intro v t h
    cases v with
    | none => simp [validate_content] at h
    | some v =>
      simp only [validate_content] at h ⊢
      by_cases hl : v.length < 250
      · rw [if_pos hl] at h; simp at h
      · rw [if_neg hl] at h
        simp at h
        subst h
        rw [if_neg hl]
  · intro v t h
    cases v with
    | none =>
      simp only [validate_summary] at h
      simp at h
      subst h
      rfl
    | some v =>
      simp only [validate_summary] at h
      by_cases hl : v.length > 250
      · rw [if_pos hl] at h; simp at h
      · rw [if_neg hl] at h
        simp at h
        subst h
        simp only [validate_summary]
        rw [if_neg hl]
  · intro v t h
    cases v with
    | none => simp [validate_category] at h
    | some v =>
      simp only [validate_category] at h ⊢
      by_cases hm : v = "Fiction".data ∨ v = "Non-Fiction".data
      · rw [if_neg (not_not_intro hm)] at h
        simp at h
        subst h
        rw [if_neg (not_not_intro hm)]
      · rw [if_pos hm] at h; simp at h
  · intro v t h
    cases v with
    | none =>
      simp only [validate_phone_number] at h
      simp at h
      subst h
      rfl
    | str s =>
      simp only [validate_phone_number] at h
      by_cases hc : s.length ≠ 10 ∨ ¬ pyIsDigit s
      · rw [if_pos hc] at h; simp at h
      · rw [if_neg hc] at h
        simp at h
        subst h
        simp only [validate_phone_number]
        rw [if_neg hc]
    | int n => simp [validate_phone_number] at h

/-- Witness for C9: the content validator re-accepts a value it produced. -/
theorem validators_idempotent_witness :
    validate_content (Option.some (List.replicate 300 'a')) =
      Except.ok (List.replicate 300 'a') := by
  have h0 : validate_content (Option.some (List.replicate 300 'a')) =
      Except.ok (List.replicate 300 'a') := by
    simp [validate_content]
  exact validators_idempotent.2.2.1 (Option.some (List.replicate 300 'a'))
    (List.replicate 300 'a') h0

end Validations
